import Mathlib

/-!
Verification of the yokai-chat streaming inference client subsystem.

This file shallow-embeds the relevant parts of the source into Lean:

* the server-sent-event stream decoder of
  `LMStudioService.processStream` (src/services/lmstudio.ts, and the
  identical copy in the variant service file with chat history),
* the surrounding `sendMessageStream` error path and `handleError`,
* the `RequestCache` (src/utils/requestCache.ts),
* `StatePersistence` together with the validators of
  src/utils/validation.ts (src/utils/persistence.ts), and
* the delta-application logic of ChatView.vue and
  `updateMessage` of src/stores/messages.ts.

Modelling conventions:

* JavaScript strings are modelled as `List Char`; transport chunks are
  `List Char` values and the decoder works on them exactly as the source
  does (split on newline, filter blank lines, handle the data prefix).
* `JSON.parse` inside the decoder is modelled by an executable
  recognizer of the canonical LM Studio wire forms
  (a choices/delta/content object and an error/message object, with
  full JSON string escaping); every other payload is treated as
  unparseable, which matches the source's behaviour on all inputs the
  claims exercise since the source silently skips any line whose
  payload fails to parse.
* `localStorage` is a finite association list from keys to stored
  documents.  A stored document carries the raw text together with its
  JSON parse outcome (`Option Json`); `JSON.stringify` followed by
  `JSON.parse` is modelled value-level (a `Date` serializes to a
  string, `undefined` fields are dropped), mirroring what the JSON
  round trip does to the runtime values.
* Wall-clock time (`Date.now()`) is passed explicitly as a `Nat`.
-/

/-! ## Stream decoder (LMStudioService.processStream) -/

/-- The literal prefix "data: " checked by `line.startsWith('data: ')`. -/
def dataMark : List Char := ['d', 'a', 't', 'a', ':', ' ']

/-- The literal terminator payload "[DONE]". -/
def doneLit : List Char := ['[', 'D', 'O', 'N', 'E', ']']

/-- Hex digit rendering used by the modelled JSON \uXXXX escapes. -/
def hexDigit (n : Nat) : Char :=
  if n < 10 then Char.ofNat (48 + n) else Char.ofNat (87 + n)

/-- Hex digit reading for the modelled JSON \uXXXX escapes. -/
def hexVal (c : Char) : Option Nat :=
  if 48 ≤ c.toNat ∧ c.toNat ≤ 57 then some (c.toNat - 48)
  else if 97 ≤ c.toNat ∧ c.toNat ≤ 102 then some (c.toNat - 87)
  else if 65 ≤ c.toNat ∧ c.toNat ≤ 70 then some (c.toNat - 55)
  else none

/-- JSON string escaping of one character, as a JSON serializer performs
it: quote, backslash and the common control characters get two-character
escapes, other control characters get a \u00XX escape, everything else
is emitted verbatim. -/
def encodeChar (c : Char) : List Char :=
  if c = '"' then ['\\', '"']
  else if c = '\\' then ['\\', '\\']
  else if c = '\n' then ['\\', 'n']
  else if c = '\r' then ['\\', 'r']
  else if c = '\t' then ['\\', 't']
  else if c.toNat < 32 then
    ['\\', 'u', '0', '0', hexDigit (c.toNat / 16), hexDigit (c.toNat % 16)]
  else [c]

/-- JSON string escaping of a whole string. -/
def encodeStr : List Char → List Char
  | [] => []
  | c :: cs => encodeChar c ++ encodeStr cs

/-- Parse a JSON string body up to and including the closing quote,
returning the decoded content and the remaining characters.  This models
the string scanning done by `JSON.parse`. -/
def parseStrBody : List Char → Option (List Char × List Char)
  | [] => none
  | c :: rest =>
    if c = '"' then some ([], rest)
    else if c = '\\' then
      match rest with
      | [] => none
      | e :: rest2 =>
        if e = '"' then (parseStrBody rest2).map (fun p => ('"' :: p.1, p.2))
        else if e = '\\' then (parseStrBody rest2).map (fun p => ('\\' :: p.1, p.2))
        else if e = '/' then (parseStrBody rest2).map (fun p => ('/' :: p.1, p.2))
        else if e = 'n' then (parseStrBody rest2).map (fun p => ('\n' :: p.1, p.2))
        else if e = 'r' then (parseStrBody rest2).map (fun p => ('\r' :: p.1, p.2))
        else if e = 't' then (parseStrBody rest2).map (fun p => ('\t' :: p.1, p.2))
        else if e = 'b' then (parseStrBody rest2).map (fun p => (Char.ofNat 8 :: p.1, p.2))
        else if e = 'f' then (parseStrBody rest2).map (fun p => (Char.ofNat 12 :: p.1, p.2))
        else if e = 'u' then
          match rest2 with
          | h1 :: h2 :: h3 :: h4 :: rest3 =>
            match hexVal h1, hexVal h2, hexVal h3, hexVal h4 with
            | some d1, some d2, some d3, some d4 =>
              (parseStrBody rest3).map
                (fun p => (Char.ofNat (((d1 * 16 + d2) * 16 + d3) * 16 + d4) :: p.1, p.2))
            | _, _, _, _ => none
          | _ => none
        else none
    else (parseStrBody rest).map (fun p => (c :: p.1, p.2))

/-- Strip an expected leading character sequence. -/
def dropPref : List Char → List Char → Option (List Char)
  | [], ys => some ys
  | _ :: _, [] => none
  | x :: xs, y :: ys => if x = y then dropPref xs ys else none

/-- Opening of the canonical content-delta payload, up to and including
the quote that starts the content string. -/
def deltaPre : List Char :=
  ['{', '"', 'c', 'h', 'o', 'i', 'c', 'e', 's', '"', ':', '[',
   '{', '"', 'd', 'e', 'l', 't', 'a', '"', ':',
   '{', '"', 'c', 'o', 'n', 't', 'e', 'n', 't', '"', ':', '"']

/-- Closing of the canonical content-delta payload, after the quote that
ends the content string. -/
def deltaPost : List Char := ['}', '}', ']', '}']

/-- Opening of the canonical server-error payload. -/
def errPre : List Char :=
  ['{', '"', 'e', 'r', 'r', 'o', 'r', '"', ':',
   '{', '"', 'm', 'e', 's', 's', 'a', 'g', 'e', '"', ':', '"']

/-- Closing of the canonical server-error payload. -/
def errPost : List Char := ['}', '}']

/-- Outcome of `JSON.parse` on a data-line payload, restricted to the
two canonical wire shapes the service consumes: a content delta
(`parsed.choices[0].delta.content`) or a server error
(`parsed.error.message`). -/
inductive Payload where
  | deltaP (content : List Char)
  | errorP (message : List Char)
deriving DecidableEq

/-- Modelled `JSON.parse` for data-line payloads: recognizes the
canonical content-delta and error documents; anything else fails to
parse (the source then silently skips the line). -/
def parsePayload (p : List Char) : Option Payload :=
  match dropPref deltaPre p with
  | some rest =>
    match parseStrBody rest with
    | some (content, rem) => if rem = deltaPost then some (.deltaP content) else none
    | none => none
  | none =>
    match dropPref errPre p with
    | some rest =>
      match parseStrBody rest with
      | some (msg, rem) => if rem = errPost then some (.errorP msg) else none
      | none => none
    | none => none

/-- What one line contributes inside the decoding loop. -/
inductive LineOut where
  | skipL
  | doneL
  | errL (msg : List Char)
  | deltaL (s : List Char)
deriving DecidableEq

/-- The fallback text used by `parsed.error.message || 'Unknown error'`. -/
def unknownErrText : List Char :=
  ['U', 'n', 'k', 'n', 'o', 'w', 'n', ' ', 'e', 'r', 'r', 'o', 'r']

/-- One iteration of the `for (const line of lines)` body of
`processStream`: lines without the data mark are skipped, `[DONE]` ends
the stream, unparseable payloads are skipped, an error payload invokes
the error callback (with the fallback text when the message is empty,
modelling the falsy check) and ends the stream, and a delta payload
invokes the chunk callback only when the content is a non-empty string
(the truthiness test on `parsed.choices?.[0]?.delta?.content`). -/
def processLine (l : List Char) : LineOut :=
  if dataMark.isPrefixOf l then
    let d := l.drop 6
    if d = doneLit then .doneL
    else
      match parsePayload d with
      | none => .skipL
      | some (.errorP m) => .errL (if m = [] then unknownErrText else m)
      | some (.deltaP c) => if c = [] then .skipL else .deltaL c
  else .skipL

/-- Observable callback invocations of the streaming client. -/
inductive SSEEvent where
  | chunkCb (s : List Char)
  | errorCb (s : List Char)
deriving DecidableEq

/-- How a `processStream` run ended: terminator seen, error payload
seen, or the chunk sequence simply ended (also the abort case). -/
inductive StreamTerm where
  | doneT
  | errT
  | endT
deriving DecidableEq

/-- Process the (already blank-filtered) lines of one chunk; `none` in
the second component means processing fell through to the next chunk. -/
def processLines : List (List Char) → List SSEEvent × Option StreamTerm
  | [] => ([], none)
  | l :: ls =>
    match processLine l with
    | .skipL => processLines ls
    | .doneL => ([], some .doneT)
    | .errL m => ([.errorCb m], some .errT)
    | .deltaL s =>
      let r := processLines ls
      (.chunkCb s :: r.1, r.2)

/-- JavaScript `chunk.split('\n')`. -/
def splitNl : List Char → List (List Char)
  | [] => [[]]
  | c :: cs =>
    if c = '\n' then [] :: splitNl cs
    else
      match splitNl cs with
      | [] => [[c]]
      | p :: ps => (c :: p) :: ps

/-- The line list the source derives from one chunk:
`chunk.split('\n').filter((line) => line.trim() !== '')`. -/
def chunkLines (c : List Char) : List (List Char) :=
  (splitNl c).filter (fun l => l.any (fun ch => !ch.isWhitespace))

/-- The decoding loop of `LMStudioService.processStream`, with the byte
stream modelled as the list of decoded text chunks the reader yields. -/
def processStream : List (List Char) → List SSEEvent × StreamTerm
  | [] => ([], .endT)
  | c :: cs =>
    match processLines (chunkLines c) with
    | (evs, some t) => (evs, t)
    | (evs, none) =>
      let r := processStream cs
      (evs ++ r.1, r.2)

/-- `processStream` when the cancellation token becomes signalled after
`k` chunks have been read and applied: the loop checks
`abortController.signal.aborted` before each read and breaks (a read
rejected by the abort is swallowed as `AbortError` upstream, with the
same observable outcome). -/
def processStreamAborted : Nat → List (List Char) → List SSEEvent × StreamTerm
  | _, [] => ([], .endT)
  | 0, _ => ([], .endT)
  | Nat.succ k, c :: cs =>
    match processLines (chunkLines c) with
    | (evs, some t) => (evs, t)
    | (evs, none) =>
      let r := processStreamAborted k cs
      (evs ++ r.1, r.2)

/-! ## ChatView delta application and the messages store -/

/-- The delta payloads of an event trace, in order. -/
def deltasOf : List SSEEvent → List (List Char)
  | [] => []
  | .chunkCb s :: es => s :: deltasOf es
  | .errorCb _ :: es => deltasOf es

/-- Concatenation of a list of strings. -/
def concatAll {α : Type} : List (List α) → List α
  | [] => []
  | s :: ss => s ++ concatAll ss

/-- ChatView's content accumulation over an event trace: each
`onChunk(chunk)` call runs `accumulatedContent += chunk`; error
callbacks do not touch the content. -/
def applyEvents (acc : List Char) : List SSEEvent → List Char
  | [] => acc
  | .chunkCb s :: es => applyEvents (acc ++ s) es
  | .errorCb _ :: es => applyEvents acc es

/-! ## sendMessageStream error path (LMStudioService) -/

/-- ERROR_MESSAGES.LMSTUDIO_CONNECTION from src/constants. -/
def lmstudioConnectionText : List Char := "⚠️ Error connecting to LM Studio".data

/-- ERROR_MESSAGES.NETWORK_ERROR from src/constants. -/
def networkErrorText : List Char := "Network error occurred".data

/-- The substring probed by `error.message.includes('Failed to fetch')`. -/
def failedFetchText : List Char := "Failed to fetch".data

/-- The substring probed by `error.message.includes('NetworkError')`. -/
def networkErrProbe : List Char := "NetworkError".data

/-- JavaScript `String.prototype.includes` on character lists. -/
def containsSub (hay needle : List Char) : Bool :=
  hay.tails.any (fun t => needle.isPrefixOf t)

/-- `LMStudioService.handleError`, restricted to the `Error` case (the
only one the modelled flows produce): rewrite messages mentioning
'Failed to fetch' or 'NetworkError' to the generic constants, pass any
other message through verbatim. -/
def handleError (msg : List Char) : List Char :=
  if containsSub msg failedFetchText then lmstudioConnectionText
  else if containsSub msg networkErrProbe then networkErrorText
  else msg

/-- The raw message of the `Error` thrown on a non-2xx response:
`HTTP <status>: <body text>`. -/
def httpErrMsg (status : Nat) (body : List Char) : List Char :=
  "HTTP ".data ++ (toString status).data ++ ": ".data ++ body

/-- Outcome of the `fetch` call in `sendMessageStream`: the promise
rejects (server unreachable), or a response arrives with a status and,
when the status is successful, a streamed body. -/
inductive FetchOutcome where
  | fetchRejects (msg : List Char)
  | fetchResponse (status : Nat) (bodyText : List Char) (chunks : List (List Char))
deriving DecidableEq

/-- Everything a caller of `sendMessageStream` can observe: the
callback invocations in order, how the stream (if reached) terminated,
and the message of the re-thrown error if one was thrown. -/
structure SendOutcome where
  events : List SSEEvent
  term : Option StreamTerm
  thrown : Option (List Char)
deriving DecidableEq

/-- `LMStudioService.sendMessageStream`: on a rejected fetch or a
non-2xx status the thrown error is routed through `handleError`, the
error callback is invoked once with the result and the same message is
re-thrown; on a 2xx response the body is handed to `processStream`.
(`response.ok` is `200 ≤ status < 300`.) -/
def sendMessageStream (o : FetchOutcome) : SendOutcome :=
  match o with
  | .fetchRejects msg =>
    let e := handleError msg
    ⟨[.errorCb e], none, some e⟩
  | .fetchResponse status body chunks =>
    if 200 ≤ status ∧ status < 300 then
      let r := processStream chunks
      ⟨r.1, some r.2, none⟩
    else
      let e := handleError (httpErrMsg status body)
      ⟨[.errorCb e], none, some e⟩

/-! ## The canonical wire stream (spec section 6) -/

/-- The canonical content-delta payload for content `s`:
the double-quote-delimited JSON encoding of `s` wrapped in
the choices/delta/content object. -/
def deltaPayload (s : List Char) : List Char :=
  deltaPre ++ encodeStr s ++ '"' :: deltaPost

/-- A full content-delta line: the data mark followed by the payload. -/
def deltaLine (s : List Char) : List Char := dataMark ++ deltaPayload s

/-- The terminator line. -/
def doneLine : List Char := dataMark ++ doneLit

/-- A well-formed server stream delivering the given delta contents,
one complete line per transport chunk, each line followed by its
newline, terminated by the `[DONE]` line. -/
def wireChunks (deltas : List (List Char)) : List (List Char) :=
  deltas.map (fun s => deltaLine s ++ ['\n']) ++ [doneLine ++ ['\n']]

/-! ## JSON runtime values and the persistence layer -/

/-- A JavaScript value as produced by `JSON.parse`: the JSON data
model.  Numbers are modelled as integers (every numeric value the
claims exercise is integral). -/
inductive Json where
  | null
  | bool (b : Bool)
  | num (n : Int)
  | str (s : String)
  | arr (elems : List Json)
  | obj (fields : List (String × Json))

/-! `jsonText` is `JSON.stringify` on a parsed value (used for the raw
text stored in localStorage; downstream code only ever tests this text
for emptiness or returns it verbatim). -/

mutual
def jsonText : Json → List Char
  | .null => "null".data
  | .bool b => if b then "true".data else "false".data
  | .num n => (toString n).data
  | .str s => '"' :: (encodeStr s.data ++ ['"'])
  | .arr xs => '[' :: (jsonTextList xs ++ [']'])
  | .obj fs => Char.ofNat 123 :: (jsonTextObj fs ++ [Char.ofNat 125])
def jsonTextList : List Json → List Char
  | [] => []
  | [x] => jsonText x
  | x :: y :: xs => jsonText x ++ ',' :: jsonTextList (y :: xs)
def jsonTextObj : List (String × Json) → List Char
  | [] => []
  | [kv] => '"' :: (encodeStr kv.1.data ++ '"' :: ':' :: jsonText kv.2)
  | kv :: kw :: fs =>
    ('"' :: (encodeStr kv.1.data ++ '"' :: ':' :: jsonText kv.2)) ++ ',' :: jsonTextObj (kw :: fs)
end

/-- Message roles (src/types/chat.ts). -/
inductive Role where
  | user
  | assistant
  | developer
deriving DecidableEq

/-- The role strings as stored in JSON. -/
def roleStr : Role → String
  | .user => "user"
  | .assistant => "assistant"
  | .developer => "developer"

/-- A `Message` as held by the messages store: numeric id, role, text
content, optional creation timestamp (a JS `Date`, modelled by its
epoch milliseconds), optional context item list (modelled by the JSON
values of the items). -/
structure Message where
  id : Int
  role : Role
  content : String
  timestamp : Option Int := none
  context : Option (List Json) := none

/-- What `Date.prototype.toJSON` renders for a timestamp.  Only the
fact that the result is a string matters anywhere downstream; the
rendering is modelled as the decimal milliseconds value. -/
def isoStr (t : Int) : String := toString t

/-- The JSON value that `JSON.parse(JSON.stringify(m))` yields for a
store message: `undefined` fields are dropped by `JSON.stringify`, and
a `Date` timestamp serializes to its ISO string. -/
def messageJsonRT (m : Message) : Json :=
  .obj ([("id", .num m.id), ("role", .str (roleStr m.role)), ("content", .str m.content)]
    ++ (match m.timestamp with
        | some t => [("timestamp", Json.str (isoStr t))]
        | none => [])
    ++ (match m.context with
        | some ctx => [("context", Json.arr ctx)]
        | none => []))

/-- Field lookup on a parsed JSON object (property access; a missing
property reads as `undefined`, here `none`). -/
def getField : List (String × Json) → String → Option Json
  | [], _ => none
  | kv :: fs, key => if kv.1 = key then some kv.2 else getField fs key

/-- The `isMessage` type guard of src/utils/validation.ts, evaluated on
a `JSON.parse` result.  Parsed values are never `Date` instances, so
the clause `timestamp === undefined || timestamp instanceof Date`
reduces to the timestamp property being absent.  Non-object values
(including `null`) fail the guard, and arrays — which pass the JS
`typeof` gate — fail the subsequent `id` check, so only objects can
succeed, as matched here. -/
def isMessage (j : Json) : Bool :=
  match j with
  | .obj fs =>
    (match getField fs "id" with
     | some (.num _) => true
     | _ => false) &&
    (match getField fs "role" with
     | some (.str r) => r = "user" || r = "assistant" || r = "developer"
     | _ => false) &&
    (match getField fs "content" with
     | some (.str _) => true
     | _ => false) &&
    (match getField fs "timestamp" with
     | none => true
     | some _ => false) &&
    (match getField fs "context" with
     | none => true
     | some (.arr _) => true
     | some _ => false)
  | _ => false

/-- CONTEXT_TYPES values (src/constants). -/
def contextTypeVals : List String := ["code", "file", "text"]

/-- PROGRAMMING_LANGUAGES values (src/constants). -/
def progLangVals : List String :=
  ["javascript", "typescript", "python", "vue", "html", "css", "json",
   "bash", "sql", "markdown", "java", "cpp", "csharp", "go", "rust"]

/-- The `isContextItem` type guard of src/utils/validation.ts on a
parsed value. -/
def isContextItem (j : Json) : Bool :=
  match j with
  | .obj fs =>
    (match getField fs "id" with
     | some (.str _) => true
     | _ => false) &&
    (match getField fs "type" with
     | some (.str t) => contextTypeVals.contains t
     | _ => false) &&
    (match getField fs "title" with
     | some (.str _) => true
     | _ => false) &&
    (match getField fs "content" with
     | some (.str _) => true
     | _ => false) &&
    (match getField fs "language" with
     | none => true
     | some (.str l) => progLangVals.contains l
     | some _ => false)
  | _ => false

/-- `validateStorageData` of src/utils/validation.ts: the switch over
storage keys; note the default branch returns false, and there is no
case for the messages key. -/
def validateStorageData (key : String) (data : Json) : Bool :=
  if key = "yokai-chat-contexts" then
    match data with
    | .arr xs => xs.all isContextItem
    | _ => false
  else if key = "yokai-chat-active-contexts" then
    match data with
    | .arr xs => xs.all (fun x => match x with | .str _ => true | _ => false)
    | _ => false
  else if key = "yokai-chat-current-model" then
    match data with
    | .str s => s.length > 0
    | _ => false
  else if key = "yokai-chat-lmstudio-base-url" then
    match data with
    | .str _ => true
    | _ => false
  else false

/-- A raw localStorage value: the stored text together with its
`JSON.parse` outcome (`none` when parsing throws, as it does for the
raw non-JSON strings the model/url fields store and for corrupt data). -/
structure Raw where
  text : String
  parsed : Option Json

/-- The localStorage contents: an association list from keys to raw
stored values. -/
abbrev Storage := List (String × Raw)

/-- `localStorage.getItem` (null for a missing key). -/
def storeGet : Storage → String → Option Raw
  | [], _ => none
  | kv :: st, k => if kv.1 = k then some kv.2 else storeGet st k

/-- `localStorage.removeItem`. -/
def storeRemove (st : Storage) (k : String) : Storage :=
  st.filter (fun kv => kv.1 != k)

/-- `localStorage.setItem`. -/
def storeSet (st : Storage) (k : String) (r : Raw) : Storage :=
  (k, r) :: storeRemove st k

/-- STORAGE_KEYS.MESSAGES. -/
def messagesKey : String := "yokai-chat-messages"

/-- STORAGE_KEYS.CONTEXTS. -/
def contextsKey : String := "yokai-chat-contexts"

/-- STORAGE_KEYS.ACTIVE_CONTEXTS. -/
def activeContextsKey : String := "yokai-chat-active-contexts"

/-- STORAGE_KEYS.CURRENT_MODEL. -/
def currentModelKey : String := "yokai-chat-current-model"

/-- STORAGE_KEYS.LMSTUDIO_BASE_URL. -/
def lmstudioBaseUrlKey : String := "yokai-chat-lmstudio-base-url"

/-- The `Object.values(STORAGE_KEYS)` iteration order. -/
def storageKeyList : List String :=
  [messagesKey, contextsKey, activeContextsKey, currentModelKey, lmstudioBaseUrlKey]

/-- `validateMessagesArray`: throws on the first entry failing
`isMessage` (modelled as `none`), otherwise returns the array. -/
def validateMessagesArray (xs : List Json) : Option (List Json) :=
  if xs.all isMessage then some xs else none

/-- `validateContextsArray`, likewise. -/
def validateContextsArray (xs : List Json) : Option (List Json) :=
  if xs.all isContextItem then some xs else none

/-- `safeParseMessages`: JSON.parse, array check, validation; any throw
yields `null`. -/
def safeParseMessages (r : Raw) : Option (List Json) :=
  match r.parsed with
  | some (.arr xs) => validateMessagesArray xs
  | _ => none

/-- `safeParseContexts`, likewise. -/
def safeParseContexts (r : Raw) : Option (List Json) :=
  match r.parsed with
  | some (.arr xs) => validateContextsArray xs
  | _ => none

/-- `StatePersistence.saveMessages`: serialize and store under the
messages key. -/
def saveMessages (msgs : List Message) (st : Storage) : Storage :=
  let doc := Json.arr (msgs.map messageJsonRT)
  storeSet st messagesKey ⟨String.mk (jsonText doc), some doc⟩

/-- `StatePersistence.loadMessages`: missing or empty raw value yields
the empty list; a value that fails `safeParseMessages` is removed and
yields the empty list; a valid value is returned.  The function also
returns the storage as left behind. -/
def loadMessages (st : Storage) : List Json × Storage :=
  match storeGet st messagesKey with
  | none => ([], st)
  | some r =>
    if r.text = "" then ([], st)
    else
      match safeParseMessages r with
      | none => ([], storeRemove st messagesKey)
      | some msgs => (msgs, st)

/-- `StatePersistence.loadContexts`, same shape as `loadMessages`. -/
def loadContexts (st : Storage) : List Json × Storage :=
  match storeGet st contextsKey with
  | none => ([], st)
  | some r =>
    if r.text = "" then ([], st)
    else
      match safeParseContexts r with
      | none => ([], storeRemove st contextsKey)
      | some ctxs => (ctxs, st)

/-- Is a parsed value an array of strings
(`Array.isArray(parsed) && parsed.every(id => typeof id === 'string')`)? -/
def strArray? (v : Json) : Option (List String)  :=
  match v with
  | .arr xs =>
    if xs.all (fun x => match x with | .str _ => true | _ => false) then
      some (xs.filterMap (fun x => match x with | .str s => some s | _ => none))
    else none
  | _ => none

/-- `StatePersistence.loadActiveContexts`: note that when `JSON.parse`
throws, the catch block returns the empty list WITHOUT removing the
key; removal happens only when the value decodes but fails the shape
check. -/
def loadActiveContexts (st : Storage) : List String × Storage :=
  match storeGet st activeContextsKey with
  | none => ([], st)
  | some r =>
    if r.text = "" then ([], st)
    else
      match r.parsed with
      | none => ([], st)
      | some v =>
        match strArray? v with
        | some ids => (ids, st)
        | none => ([], storeRemove st activeContextsKey)

/-- `StatePersistence.loadCurrentModel`: returns the raw stored string,
with `stored || null` turning the empty string into an absent result;
never removes and never validates. -/
def loadCurrentModel (st : Storage) : Option String × Storage :=
  match storeGet st currentModelKey with
  | none => (none, st)
  | some r => (if r.text = "" then none else some r.text, st)

/-- `StatePersistence.loadLMStudioBaseUrl`, same shape as
`loadCurrentModel`. -/
def loadLMStudioBaseUrl (st : Storage) : Option String × Storage :=
  match storeGet st lmstudioBaseUrlKey with
  | none => (none, st)
  | some r => (if r.text = "" then none else some r.text, st)

/-- The issues `checkStorageHealth` collects for one storage key: a
present, non-empty value that fails to decode is corrupted; one that
decodes but fails `validateStorageData` has an invalid format. -/
def keyIssues (st : Storage) (key : String) : List String :=
  match storeGet st key with
  | none => []
  | some r =>
    if r.text = "" then []
    else
      match r.parsed with
      | none => [String.append "Corrupted data for " key]
      | some v =>
        if validateStorageData key v then []
        else [String.append "Invalid data format for " key]

/-- `StatePersistence.checkStorageHealth`: the availability probe is
modelled as always succeeding; each stored key is then checked and
`healthy` is the absence of issues. -/
def checkStorageHealth (st : Storage) : Bool × List String :=
  let issues := concatAll (storageKeyList.map (keyIssues st))
  (issues.isEmpty, issues)

/-! ## RequestCache (src/utils/requestCache.ts) -/

/-- A cache entry: cached value, insertion timestamp, time-to-live and
byte-size estimate (src `CacheEntry<T>`). -/
structure CacheEntry (α : Type) where
  data : α
  timestamp : Nat
  ttl : Nat
  size : Nat
deriving DecidableEq

/-- The cache configuration (src `CacheConfig`). -/
structure CacheConfig where
  maxSize : Nat
  defaultTTL : Nat
  cleanupInterval : Nat
deriving DecidableEq

/-- The constructor defaults: 50MB, 5 minutes, 1 minute. -/
def defaultCacheConfig : CacheConfig :=
  ⟨50 * 1024 * 1024, 5 * 60 * 1000, 60 * 1000⟩

/-- The cache state: the key→entry `Map` in insertion order, plus the
configuration.  (The JS `Map` keeps keys unique; theorems that need
this carry a `Nodup` hypothesis on the key list.) -/
structure RequestCache (α : Type) where
  cache : List (String × CacheEntry α)
  config : CacheConfig
deriving DecidableEq

/-- The slice of `RequestInit` that `generateKey` inspects.  The
`body`/`headers` values are modelled as the strings the source passes
(its callers pass strings or nothing). -/
structure ReqInit where
  method : Option String := none
  body : Option String := none
  headers : Option String := none
deriving DecidableEq

/-- `RequestCache.generateKey`: `method:url:body:headers` with
`options?.method || 'GET'` and the body/headers serialized through
`JSON.stringify` when truthy, else the empty string. -/
def generateKey (url : String) (options : Option ReqInit) : String :=
  let method := match options.bind ReqInit.method with
    | some m => if m = "" then "GET" else m
    | none => "GET"
  let body := match options.bind ReqInit.body with
    | some b => if b = "" then "" else String.mk (jsonText (.str b))
    | none => ""
  let headers := match options.bind ReqInit.headers with
    | some h => if h = "" then "" else String.mk (jsonText (.str h))
    | none => ""
  method ++ ":" ++ url ++ ":" ++ body ++ ":" ++ headers

/-- `Map.prototype.get`. -/
def mapGet {α : Type} : List (String × α) → String → Option α
  | [], _ => none
  | kv :: m, k => if kv.1 = k then some kv.2 else mapGet m k

/-- `Map.prototype.set`: overwrite in place if the key exists (keeping
its position in insertion order), else append. -/
def mapSet {α : Type} : List (String × α) → String → α → List (String × α)
  | [], k, v => [(k, v)]
  | kv :: m, k, v => if kv.1 = k then (k, v) :: m else kv :: mapSet m k v

/-- `Map.prototype.delete` (drops the key's entry). -/
def mapDelete {α : Type} : List (String × α) → String → List (String × α)
  | [], _ => []
  | kv :: m, k => if kv.1 = k then m else kv :: mapDelete m k

/-- `RequestCache.getCurrentSize`: the sum of the stored size
estimates. -/
def getCurrentSize {α : Type} (m : List (String × CacheEntry α)) : Nat :=
  (m.map (fun kv => kv.2.size)).sum

/-- `Math.ceil(n * 0.25)`. -/
def ceilQuarter (n : Nat) : Nat := (n + 3) / 4

/-- `RequestCache.evictOldest`: sort the entries by insertion
timestamp (JS `Array.prototype.sort` is stable) and delete the oldest
25% (rounded up) of the keys. -/
def evictOldest {α : Type} (m : List (String × CacheEntry α)) :
    List (String × CacheEntry α) :=
  let sorted := m.mergeSort (fun a b => a.2.timestamp ≤ b.2.timestamp)
  let victims := (sorted.take (ceilQuarter m.length)).map Prod.fst
  victims.foldl (fun acc k => mapDelete acc k) m

/-- `RequestCache.get` at wall-clock time `now`: a missing key is a
miss; an entry with `now - timestamp > ttl` is deleted and reported as
a miss; otherwise the data is returned.  Also returns the cache as
left behind. -/
def RequestCache.get {α : Type} (c : RequestCache α) (now : Nat) (url : String)
    (options : Option ReqInit) : Option α × RequestCache α :=
  let key := generateKey url options
  match mapGet c.cache key with
  | none => (none, c)
  | some entry =>
    if now - entry.timestamp > entry.ttl then
      (none, { c with cache := mapDelete c.cache key })
    else (some entry.data, c)

/-- `RequestCache.set` at wall-clock time `now`.  `sizeFn` models the
`calculateSize` serialized-byte estimate.  When the new total would
exceed `maxSize`, `evictOldest` runs once; the entry's ttl is
`ttl || defaultTTL` — note a passed ttl of 0 is falsy and silently
becomes the default. -/
def RequestCache.set {α : Type} (c : RequestCache α) (now : Nat) (sizeFn : α → Nat)
    (url : String) (data : α) (options : Option ReqInit) (ttl : Option Nat) :
    RequestCache α :=
  let key := generateKey url options
  let size := sizeFn data
  let c1 :=
    if getCurrentSize c.cache + size > c.config.maxSize then
      { c with cache := evictOldest c.cache }
    else c
  let entry : CacheEntry α :=
    ⟨data, now,
     (match ttl with
      | some t => if t = 0 then c.config.defaultTTL else t
      | none => c.config.defaultTTL),
     size⟩
  { c1 with cache := mapSet c1.cache key entry }

/-! ## ChatView streaming accumulation and the messages store -/

/-- `updateMessage` of src/stores/messages.ts, specialized to the
content-only update ChatView performs: the first message with the given
id has its content replaced; other fields and all other messages are
untouched, and a missing id leaves the list unchanged. -/
def updateMessage : List Message → Int → String → List Message
  | [], _, _ => []
  | m :: ms, id, c =>
    if m.id = id then { m with content := c } :: ms
    else m :: updateMessage ms id c

/-- Content of the message with the given id, if present. -/
def contentOf : List Message → Int → Option String
  | [], _ => none
  | m :: ms, id => if m.id = id then some m.content else contentOf ms id

/-- One `onChunk` invocation of ChatView's `handleSend`: the local
accumulator (initialized to the empty string at stream start) grows by
the chunk, and the assistant message's content is overwritten with the
accumulator — the current persisted content is never read. -/
def onChunkStep (assistantId : Int) (st : List Message × List Char)
    (chunk : List Char) : List Message × List Char :=
  let acc := st.2 ++ chunk
  (updateMessage st.1 assistantId (String.mk acc), acc)


/-! ## The five persisted fields, uniformly (for corruption isolation) -/

/-- The five persisted fields of the durable snapshot. -/
inductive PersistField where
  | messagesF
  | contextsF
  | activeContextsF
  | currentModelF
  | baseUrlF
deriving DecidableEq

/-- The storage key owned by each field. -/
def fieldKey : PersistField → String
  | .messagesF => messagesKey
  | .contextsF => contextsKey
  | .activeContextsF => activeContextsKey
  | .currentModelF => currentModelKey
  | .baseUrlF => lmstudioBaseUrlKey

/-- The result of a field's load, over the three result shapes. -/
inductive LoadOut where
  | jsonList (l : List Json)
  | strList (l : List String)
  | optStr (o : Option String)

/-- Load a field's value from storage. -/
def loadAny : PersistField → Storage → LoadOut
  | .messagesF, st => .jsonList (loadMessages st).1
  | .contextsF, st => .jsonList (loadContexts st).1
  | .activeContextsF, st => .strList (loadActiveContexts st).1
  | .currentModelF, st => .optStr (loadCurrentModel st).1
  | .baseUrlF, st => .optStr (loadLMStudioBaseUrl st).1

/-- The storage as a field's load leaves it behind. -/
def storageAfterLoad : PersistField → Storage → Storage
  | .messagesF, st => (loadMessages st).2
  | .contextsF, st => (loadContexts st).2
  | .activeContextsF, st => (loadActiveContexts st).2
  | .currentModelF, st => (loadCurrentModel st).2
  | .baseUrlF, st => (loadLMStudioBaseUrl st).2

/-- The absent/empty value each field's load falls back to. -/
def absentOut : PersistField → LoadOut
  | .messagesF => .jsonList []
  | .contextsF => .jsonList []
  | .activeContextsF => .strList []
  | .currentModelF => .optStr none
  | .baseUrlF => .optStr none

/-- A stored raw value that is corrupted for the given field: for the
three validated JSON fields, a non-empty value that fails to decode or
fails the field's validator; for the raw-string model/url fields —
which have no decode step and no validator in their load path — the
only stored value their load treats as bad, the empty string. -/
def corruptedFor : PersistField → Raw → Bool
  | .messagesF, r => (r.text != "") && (safeParseMessages r).isNone
  | .contextsF, r => (r.text != "") && (safeParseContexts r).isNone
  | .activeContextsF, r =>
    (r.text != "") &&
      (match r.parsed with
       | none => true
       | some v => (strArray? v).isNone)
  | .currentModelF, r => r.text == ""
  | .baseUrlF, r => r.text == ""

/-- When the source actually removes the corrupted key: always for
messages and contexts, only in the decodes-but-invalid case for
active contexts, never for the model/url fields. -/
def removalSpec : PersistField → Raw → Bool
  | .messagesF, _ => true
  | .contextsF, _ => true
  | .activeContextsF, r => r.parsed.isSome
  | .currentModelF, _ => false
  | .baseUrlF, _ => false

/-! ## Lemmas about the modelled JSON string scanning -/

theorem hexVal_hexDigit : ∀ n, n < 16 → hexVal (hexDigit n) = some n := by
  decide

theorem parseStrBody_quote (r : List Char) : parseStrBody ('"' :: r) = some ([], r) := by
  conv_lhs => rw [parseStrBody.eq_def]
  simp

theorem parseStrBody_esc_quote (r : List Char) :
    parseStrBody ('\\' :: '"' :: r) = (parseStrBody r).map (fun p => ('"' :: p.1, p.2)) := by
  conv_lhs => rw [parseStrBody.eq_def]
  simp

theorem parseStrBody_esc_bs (r : List Char) :
    parseStrBody ('\\' :: '\\' :: r) = (parseStrBody r).map (fun p => ('\\' :: p.1, p.2)) := by
  conv_lhs => rw [parseStrBody.eq_def]
  simp

theorem parseStrBody_esc_n (r : List Char) :
    parseStrBody ('\\' :: 'n' :: r) = (parseStrBody r).map (fun p => ('\n' :: p.1, p.2)) := by
  conv_lhs => rw [parseStrBody.eq_def]
  simp

theorem parseStrBody_esc_r (r : List Char) :
    parseStrBody ('\\' :: 'r' :: r) = (parseStrBody r).map (fun p => ('\r' :: p.1, p.2)) := by
  conv_lhs => rw [parseStrBody.eq_def]
  simp

theorem parseStrBody_esc_t (r : List Char) :
    parseStrBody ('\\' :: 't' :: r) = (parseStrBody r).map (fun p => ('\t' :: p.1, p.2)) := by
  conv_lhs => rw [parseStrBody.eq_def]
  simp

theorem parseStrBody_esc_u (h1 h2 h3 h4 : Char) (r : List Char) :
    parseStrBody ('\\' :: 'u' :: h1 :: h2 :: h3 :: h4 :: r) =
      match hexVal h1, hexVal h2, hexVal h3, hexVal h4 with
      | some d1, some d2, some d3, some d4 =>
        (parseStrBody r).map
          (fun p => (Char.ofNat (((d1 * 16 + d2) * 16 + d3) * 16 + d4) :: p.1, p.2))
      | _, _, _, _ => none := by
  conv_lhs => rw [parseStrBody.eq_def]
  simp

theorem parseStrBody_plain (c : Char) (r : List Char) (h1 : c ≠ '"') (h2 : c ≠ '\\') :
    parseStrBody (c :: r) = (parseStrBody r).map (fun p => (c :: p.1, p.2)) := by
  conv_lhs => rw [parseStrBody.eq_def]
  simp [h1, h2]

/-- The JSON escape of a string scans back to the string itself: the
round trip between the modelled serializer and the modelled parser. -/
theorem parseStrBody_encodeStr (s rest : List Char) :
    parseStrBody (encodeStr s ++ '"' :: rest) = some (s, rest) := by
  induction s with
  | nil => simp [encodeStr, parseStrBody_quote]
  | cons c cs ih =>
    have hL : encodeStr (c :: cs) ++ '"' :: rest = encodeChar c ++ (encodeStr cs ++ '"' :: rest) := by
      simp [encodeStr]
    rw [hL]
    by_cases h1 : c = '"'
    · subst h1
      rw [show encodeChar '"' = ['\\', '"'] from rfl]
      simp [parseStrBody_esc_quote, ih]
    by_cases h2 : c = '\\'
    · subst h2
      rw [show encodeChar '\\' = ['\\', '\\'] from rfl]
      simp [parseStrBody_esc_bs, ih]
    by_cases h3 : c = '\n'
    · subst h3
      rw [show encodeChar '\n' = ['\\', 'n'] from rfl]
      simp [parseStrBody_esc_n, ih]
    by_cases h4 : c = '\r'
    · subst h4
      rw [show encodeChar '\r' = ['\\', 'r'] from rfl]
      simp [parseStrBody_esc_r, ih]
    by_cases h5 : c = '\t'
    · subst h5
      rw [show encodeChar '\t' = ['\\', 't'] from rfl]
      simp [parseStrBody_esc_t, ih]
    by_cases h6 : c.toNat < 32
    · rw [show encodeChar c =
            ['\\', 'u', '0', '0', hexDigit (c.toNat / 16), hexDigit (c.toNat % 16)] from by
        simp [encodeChar, h1, h2, h3, h4, h5, h6]]
      simp only [List.cons_append, List.nil_append]
      rw [parseStrBody_esc_u]
      have d1 : hexVal (hexDigit (c.toNat / 16)) = some (c.toNat / 16) :=
        hexVal_hexDigit _ (by omega)
      have d2 : hexVal (hexDigit (c.toNat % 16)) = some (c.toNat % 16) :=
        hexVal_hexDigit _ (by omega)
      rw [show hexVal '0' = some 0 from rfl, d1, d2]
      simp [ih]
      rw [show c.toNat / 16 * 16 + c.toNat % 16 = c.toNat from by omega, Char.ofNat_toNat]
    · rw [show encodeChar c = [c] from by simp [encodeChar, h1, h2, h3, h4, h5, h6]]
      simp [parseStrBody_plain c _ h1 h2, ih]

theorem dropPref_self_append (p x : List Char) : dropPref p (p ++ x) = some x := by
  induction p with
  | nil => rfl
  | cons a p ih => simp [dropPref, ih]

/-- The modelled JSON.parse accepts the canonical delta payload and
recovers the content. -/
theorem parsePayload_deltaPayload (s : List Char) :
    parsePayload (deltaPayload s) = some (.deltaP s) := by
  unfold parsePayload deltaPayload
  rw [show deltaPre ++ encodeStr s ++ '"' :: deltaPost =
        deltaPre ++ (encodeStr s ++ '"' :: deltaPost) from by simp]
  rw [dropPref_self_append]
  simp [parseStrBody_encodeStr]

/-! ## Lemmas about lines, chunks and the decoding loop -/

theorem hexDigit_ne_newline : ∀ n, n < 16 → hexDigit n ≠ '\n' := by
  decide

theorem newline_not_mem_encodeChar (c : Char) : ¬ '\n' ∈ encodeChar c := by
  unfold encodeChar
  split_ifs with h1 h2 h3 h4 h5 h6
  · simp
  · simp
  · simp
  · simp
  · simp
  · have e1 := hexDigit_ne_newline (c.toNat / 16) (by omega)
    have e2 := hexDigit_ne_newline (c.toNat % 16) (by omega)
    simp [Ne.symm e1, Ne.symm e2]
  · simp only [List.mem_singleton]
    exact fun h => h3 h.symm

theorem newline_not_mem_encodeStr (s : List Char) : ¬ '\n' ∈ encodeStr s := by
  induction s with
  | nil => simp [encodeStr]
  | cons c cs ih =>
    intro h
    simp only [encodeStr, List.mem_append] at h
    rcases h with h | h
    · exact newline_not_mem_encodeChar c h
    · exact ih h

theorem newline_not_mem_deltaLine (s : List Char) : ¬ '\n' ∈ deltaLine s := by
  intro h
  simp only [deltaLine, deltaPayload, List.mem_append, List.mem_cons] at h
  simp [dataMark, deltaPre, deltaPost] at h
  exact newline_not_mem_encodeStr s h

theorem splitNl_ne_nil (l : List Char) : splitNl l ≠ [] := by
  induction l with
  | nil => simp [splitNl]
  | cons c cs ih =>
    unfold splitNl
    split_ifs
    · simp
    · cases h : splitNl cs with
      | nil => simp
      | cons p ps => simp

theorem splitNl_append_newline (a b : List Char) :
    splitNl (a ++ '\n' :: b) = splitNl a ++ splitNl b := by
  induction a with
  | nil => simp [splitNl]
  | cons c cs ih =>
    simp only [List.cons_append]
    by_cases h : c = '\n'
    · subst h
      simp [splitNl, ih]
    · simp only [splitNl]
      rw [if_neg h, if_neg h, ih]
      cases hs : splitNl cs with
      | nil => exact absurd hs (splitNl_ne_nil cs)
      | cons p ps => simp

theorem splitNl_of_not_mem (l : List Char) (h : ¬ '\n' ∈ l) : splitNl l = [l] := by
  induction l with
  | nil => rfl
  | cons c cs ih =>
    have hc : c ≠ '\n' := by
      intro e
      exact h (by simp [e])
    have hcs : ¬ '\n' ∈ cs := fun m => h (by simp [m])
    simp only [splitNl]
    rw [if_neg hc, ih hcs]

theorem chunkLines_append_newline (a b : List Char) :
    chunkLines (a ++ '\n' :: b) = chunkLines a ++ chunkLines b := by
  simp [chunkLines, splitNl_append_newline, List.filter_append]

theorem chunkLines_newline_end (a : List Char) : chunkLines (a ++ ['\n']) = chunkLines a := by
  have h := chunkLines_append_newline a []
  simpa [chunkLines, splitNl] using h

theorem chunkLines_single (l : List Char) (h : ¬ '\n' ∈ l)
    (hw : l.any (fun ch => !ch.isWhitespace) = true) : chunkLines l = [l] := by
  simp [chunkLines, splitNl_of_not_mem l h, hw]

theorem processLines_append (l1 l2 : List (List Char)) :
    processLines (l1 ++ l2) =
      match processLines l1 with
      | (evs, some t) => (evs, some t)
      | (evs, none) => (evs ++ (processLines l2).1, (processLines l2).2) := by
  induction l1 with
  | nil => simp [processLines]
  | cons l ls ih =>
    cases ho : processLine l with
    | skipL => simpa [processLines, ho, List.append_eq] using ih
    | doneL => simp [processLines, ho]
    | errL m => simp [processLines, ho]
    | deltaL s =>
      simp only [List.cons_append, processLines, ho, List.append_eq]
      rw [ih]
      rcases hls : processLines ls with ⟨evs, t⟩
      cases t <;> simp

theorem processStream_cons (c : List Char) (cs : List (List Char)) :
    processStream (c :: cs) =
      match processLines (chunkLines c) with
      | (evs, some t) => (evs, t)
      | (evs, none) => (evs ++ (processStream cs).1, (processStream cs).2) := by
  rcases h : processLines (chunkLines c) with ⟨evs, t⟩
  cases t <;> simp [processStream, h]

theorem processLine_deltaLine (s : List Char) (h : s ≠ []) :
    processLine (deltaLine s) = .deltaL s := by
  have hpre : dataMark.isPrefixOf (dataMark ++ deltaPayload s) = true := by
    simp [List.isPrefixOf_iff_prefix]
  have hdrop : (dataMark ++ deltaPayload s).drop 6 = deltaPayload s :=
    List.drop_left' (show dataMark.length = 6 from rfl)
  have hne : deltaPayload s ≠ doneLit := by
    intro e
    have h0 := congrArg (fun l => l.head?) e
    simp [deltaPayload, deltaPre, doneLit] at h0
  simp [processLine, deltaLine, hpre, hdrop, hne, parsePayload_deltaPayload, h]

theorem deltaLine_any_nonws (s : List Char) :
    (deltaLine s).any (fun ch => !ch.isWhitespace) = true := by
  rw [show deltaLine s = 'd' :: ('a' :: 't' :: 'a' :: ':' :: ' ' :: deltaPayload s) from rfl]
  simp [List.any_cons, show 'd'.isWhitespace = false from by decide]

theorem chunkLines_deltaLineChunk (s : List Char) :
    chunkLines (deltaLine s ++ ['\n']) = [deltaLine s] := by
  rw [chunkLines_newline_end]
  exact chunkLines_single _ (newline_not_mem_deltaLine s) (deltaLine_any_nonws s)

theorem processLines_deltaLine (s : List Char) (h : s ≠ []) :
    processLines [deltaLine s] = ([SSEEvent.chunkCb s], none) := by
  simp [processLines, processLine_deltaLine s h]

theorem chunkLines_doneChunk : chunkLines (doneLine ++ ['\n']) = [doneLine] := by
  decide

theorem processLines_doneLine : processLines [doneLine] = ([], some .doneT) := by
  decide

/-- ChatView's accumulation over a trace equals the starting value
followed by the concatenation of the trace's delta payloads. -/
theorem applyEvents_concat (acc : List Char) (evs : List SSEEvent) :
    applyEvents acc evs = acc ++ concatAll (deltasOf evs) := by
  induction evs generalizing acc with
  | nil => simp [applyEvents, deltasOf, concatAll]
  | cons e es ih =>
    cases e with
    | chunkCb s => simp [applyEvents, deltasOf, concatAll, ih]
    | errorCb s => simp [applyEvents, deltasOf, ih]

theorem deltasOf_map_chunkCb (ds : List (List Char)) :
    deltasOf (ds.map SSEEvent.chunkCb) = ds := by
  induction ds with
  | nil => rfl
  | cons d ds ih => simp [deltasOf, ih]

/-- The line of an empty-content delta is parsed but fires no callback:
the truthiness test on `parsed.choices?.[0]?.delta?.content` is false
for the empty string, so the line is skipped. -/
theorem processLines_deltaLine_empty : processLines [deltaLine []] = ([], none) := by
  decide

/-- Decoding a well-formed wire stream: one chunk callback per delta
with non-empty content, in emission order (empty-content deltas fire no
callback), then the `[DONE]` termination. -/
theorem processStream_wireChunks (deltas : List (List Char)) :
    processStream (wireChunks deltas) =
      ((deltas.filter (fun s => !s.isEmpty)).map SSEEvent.chunkCb, .doneT) := by
  induction deltas with
  | nil =>
    rw [show wireChunks [] = [doneLine ++ ['\n']] from rfl, processStream_cons,
        chunkLines_doneChunk, processLines_doneLine]
    simp
  | cons d ds ih =>
    rw [show wireChunks (d :: ds) = (deltaLine d ++ ['\n']) :: wireChunks ds from by
          simp [wireChunks],
        processStream_cons, chunkLines_deltaLineChunk]
    cases d with
    | nil =>
      rw [processLines_deltaLine_empty, ih]
      simp [List.filter_cons]
    | cons c cs =>
      rw [processLines_deltaLine (c :: cs) (by simp), ih]
      simp [List.filter_cons]

/-- Dropping the empty strings of a list does not change its
concatenation. -/
theorem concatAll_filter_nonempty (l : List (List Char)) :
    concatAll (l.filter (fun s => !s.isEmpty)) = concatAll l := by
  induction l with
  | nil => rfl
  | cons s ss ih =>
    cases s with
    | nil => simp [List.filter_cons, concatAll, ih]
    | cons c cs => simp [List.filter_cons, concatAll, ih]

/-- Cancellation after `k` reads behaves exactly like a stream
truncated to `k` chunks. -/
theorem processStreamAborted_take (k : Nat) (chunks : List (List Char)) :
    processStreamAborted k chunks = processStream (chunks.take k) := by
  induction chunks generalizing k with
  | nil => cases k <;> simp [processStreamAborted, processStream]
  | cons c cs ih =>
    cases k with
    | zero => simp [processStreamAborted, processStream]
    | succ k =>
      simp only [List.take_succ_cons]
      rw [processStream_cons]
      simp only [processStreamAborted]
      rcases hc : processLines (chunkLines c) with ⟨evs, t⟩
      cases t <;> simp [ih]

/-! ## Claims C2, C3, C4: the stream decoder -/

/-- C2, counterexample: the claim asserts decoding is invariant under a
split at ANY byte position.  Splitting the single content-delta line
for "Hi" at position 10 (inside the JSON payload) across two chunks
loses the delta entirely — delivered whole it yields one chunk
callback, split it yields none — because the decoder buffers nothing
across chunks and silently skips both unparseable fragments. -/
theorem C2_counterexample :
    processStream [(dataMark ++ deltaPayload ['H', 'i']).take 10,
                   (dataMark ++ deltaPayload ['H', 'i']).drop 10] ≠
      processStream [dataMark ++ deltaPayload ['H', 'i']] ∧
    processStream [dataMark ++ deltaPayload ['H', 'i']] =
      ([SSEEvent.chunkCb ['H', 'i']], .endT) ∧
    processStream [(dataMark ++ deltaPayload ['H', 'i']).take 10,
                   (dataMark ++ deltaPayload ['H', 'i']).drop 10] = ([], .endT) := by
  decide

/-- C2, amended: decoding is invariant under a chunk boundary placed at
a line boundary (immediately after the newline): processing the chunk
`a ++ '\n'` followed by the chunk `b` emits the same events and
termination as processing the single chunk `a ++ '\n' :: b`, for every
continuation of the stream.  Splits interior to a line are NOT
invariant (see the counterexample: both fragments of a split data line
are silently skipped and the event is lost). -/
theorem C2_line_boundary_invariance (a b : List Char) (cs : List (List Char)) :
    processStream ((a ++ ['\n']) :: b :: cs) = processStream ((a ++ '\n' :: b) :: cs) := by
  rw [processStream_cons (a ++ ['\n']) (b :: cs), chunkLines_newline_end,
      processStream_cons (a ++ '\n' :: b) cs, chunkLines_append_newline, processLines_append]
  rcases hA : processLines (chunkLines a) with ⟨evs, t⟩
  cases t with
  | none =>
    rw [processStream_cons b cs]
    rcases hB : processLines (chunkLines b) with ⟨evs2, t2⟩
    cases t2 <;> simp [List.append_assoc]
  | some t => simp

/-- C3, counterexample: the claim asserts the delta callback is
invoked once per delta in emission order for every well-formed stream.
On the well-formed stream emitting "He", "" and "llo" — three complete
content-delta lines then `[DONE]` — only two callbacks fire: the
empty-content delta fails the source's truthiness test and is dropped
without a callback.  The concatenation of the delivered payloads still
equals the full reply "Hello", since the dropped fragment is empty. -/
theorem C3_counterexample :
    processStream (wireChunks [['H', 'e'], [], ['l', 'l', 'o']]) =
      ([SSEEvent.chunkCb ['H', 'e'], SSEEvent.chunkCb ['l', 'l', 'o']], .doneT) ∧
    (processStream (wireChunks [['H', 'e'], [], ['l', 'l', 'o']])).1.length = 2 ∧
    ([['H', 'e'], [], ['l', 'l', 'o']] : List (List Char)).length = 3 ∧
    applyEvents [] (processStream (wireChunks [['H', 'e'], [], ['l', 'l', 'o']])).1 =
      ['H', 'e', 'l', 'l', 'o'] := by
  exact ⟨by decide, by decide, by decide, by decide⟩

/-- C3, amended: for every well-formed stream — complete `data: `
content-delta lines followed by the `data: [DONE]` terminator, each
line delivered whole — the delta callback is invoked once per delta
WITH NON-EMPTY CONTENT, in server emission order (an empty-content
delta fails the truthiness test and fires no callback), the stream
terminates via `[DONE]`, and ChatView's accumulated content still
equals the concatenation of all delta payloads in emission order, the
dropped fragments being empty. -/
theorem C3_wellformed_stream_delivery (deltas : List (List Char)) :
    processStream (wireChunks deltas) =
      ((deltas.filter (fun s => !s.isEmpty)).map SSEEvent.chunkCb, .doneT) ∧
    applyEvents [] (processStream (wireChunks deltas)).1 = concatAll deltas := by
  have h1 := processStream_wireChunks deltas
  refine ⟨h1, ?_⟩
  rw [h1]
  simp [applyEvents_concat, deltasOf_map_chunkCb, concatAll_filter_nonempty]

/-- C4: if the cancellation token is signalled after `k` chunk reads
(the only points where the source observes it, since callback
processing within a chunk is synchronous), the run behaves exactly like
the stream truncated to those `k` chunks: the events are precisely the
pre-signal ones — no chunk or error callback fires after the signal —
and ChatView's accumulated content equals the concatenation of exactly
the deltas applied before the signal. -/
theorem C4_cancellation_prefix (chunks : List (List Char)) (k : Nat) :
    processStreamAborted k chunks = processStream (chunks.take k) ∧
    applyEvents [] (processStreamAborted k chunks).1 =
      concatAll (deltasOf (processStreamAborted k chunks).1) := by
  refine ⟨processStreamAborted_take k chunks, ?_⟩
  simp [applyEvents_concat]

/-! ## Lemmas about the cache map -/

theorem getCurrentSize_cons {α : Type} (kv : String × CacheEntry α)
    (m : List (String × CacheEntry α)) :
    getCurrentSize (kv :: m) = kv.2.size + getCurrentSize m := by
  simp [getCurrentSize]

theorem getCurrentSize_mapSet_le {α : Type} (m : List (String × CacheEntry α))
    (k : String) (v : CacheEntry α) :
    getCurrentSize (mapSet m k v) ≤ getCurrentSize m + v.size := by
  induction m with
  | nil => simp [mapSet, getCurrentSize]
  | cons kv m ih =>
    by_cases h : kv.1 = k
    · simp [mapSet, h, getCurrentSize_cons]
      omega
    · simp only [mapSet, if_neg h, getCurrentSize_cons]
      omega

theorem mapGet_mapSet_self {α : Type} (m : List (String × α)) (k : String) (v : α) :
    mapGet (mapSet m k v) k = some v := by
  induction m with
  | nil => simp [mapSet, mapGet]
  | cons kv m ih =>
    by_cases h : kv.1 = k
    · simp [mapSet, h, mapGet]
    · simp [mapSet, h, mapGet, ih]

/-! ## Claims C5 and C8: the request cache -/

/-- C5, counterexample: the claim asserts the post-insert total never
exceeds the byte budget.  With a 3-byte budget, inserting a single
4-byte entry into an empty cache triggers the eviction path (the
insert would exceed the budget) yet leaves the total at 4 > 3, because
evicting the oldest 25% of zero entries removes nothing and the entry
is inserted regardless of its size. -/
theorem C5_counterexample :
    getCurrentSize ((RequestCache.set ⟨[], ⟨3, 1000, 1000⟩⟩ 0 (fun s => s.length)
        "u" "abcd" none none).cache) = 4 ∧
    getCurrentSize (([] : List (String × CacheEntry String))) + "abcd".length > 3 ∧
    ¬ (4 : Nat) ≤ 3 := by
  refine ⟨by decide, by decide, by decide⟩

/-- C5, amended: an insert that would exceed the budget triggers a
single eviction of the oldest 25% of entries, which is NOT always
sufficient to keep the post-insert total within the budget (see the
counterexample); when the insert fits — current total plus the entry's
size estimate is within the budget — the post-insert total stays
within the budget. -/
theorem C5_within_budget_when_fits {α : Type} (c : RequestCache α) (now : Nat)
    (sizeFn : α → Nat) (url : String) (data : α) (options : Option ReqInit)
    (ttl : Option Nat)
    (hfit : getCurrentSize c.cache + sizeFn data ≤ c.config.maxSize) :
    getCurrentSize ((RequestCache.set c now sizeFn url data options ttl).cache) ≤
      c.config.maxSize := by
  have hno : ¬ getCurrentSize c.cache + sizeFn data > c.config.maxSize := by omega
  unfold RequestCache.set
  simp only []
  rw [if_neg hno]
  exact le_trans (getCurrentSize_mapSet_le _ _ _) hfit

/-- C5 witness: a 3-byte insert into an empty 10-byte-budget cache
fits and leaves the total within budget. -/
theorem C5_witness :
    getCurrentSize (([] : List (String × CacheEntry String))) + "abc".length ≤ 10 ∧
    getCurrentSize ((RequestCache.set ⟨[], ⟨10, 1000, 1000⟩⟩ 0 (fun s => s.length)
        "u" "abc" none none).cache) ≤ 10 :=
  ⟨by decide,
   C5_within_budget_when_fits ⟨[], ⟨10, 1000, 1000⟩⟩ 0 (fun s => s.length) "u" "abc"
     none none (by decide)⟩

/-- C8, counterexample: the claim quantifies over every ttl `t` and
asserts a miss strictly after `t` elapses.  For `t = 0` the source's
`ttl || defaultTTL` fallback silently replaces 0 by the 5-minute
default, so 1ms after insertion (1 - 0 > 0 elapsed) the value is still
returned. -/
theorem C8_counterexample :
    ((RequestCache.set ⟨[], defaultCacheConfig⟩ 0 (fun _ => 1) "u" (42 : Nat) none
        (some 0)).get 1 "u" none).1 = some 42 ∧
    (1 : Nat) - 0 > 0 := by
  exact ⟨by decide, by decide⟩

/-- C8, amended: for every POSITIVE ttl `t`, `get` after `set` returns
the value while `now - insertedAt ≤ t` and is a miss — with the entry
deleted from the map — strictly after `t` has elapsed; a ttl of 0 is
falsy and silently becomes the configured default, so the claim's bound
holds only with the default in that case. -/
theorem C8_ttl_semantics {α : Type} (c : RequestCache α) (now0 now1 : Nat)
    (sizeFn : α → Nat) (url : String) (data : α) (options : Option ReqInit)
    (t : Nat) (ht : t ≠ 0) :
    (now1 - now0 > t →
      RequestCache.get (RequestCache.set c now0 sizeFn url data options (some t))
          now1 url options =
        (none,
         { RequestCache.set c now0 sizeFn url data options (some t) with
           cache := mapDelete
             (RequestCache.set c now0 sizeFn url data options (some t)).cache
             (generateKey url options) })) ∧
    (¬ now1 - now0 > t →
      RequestCache.get (RequestCache.set c now0 sizeFn url data options (some t))
          now1 url options =
        (some data, RequestCache.set c now0 sizeFn url data options (some t))) := by
  have hget : mapGet (RequestCache.set c now0 sizeFn url data options (some t)).cache
      (generateKey url options) = some ⟨data, now0, t, sizeFn data⟩ := by
    unfold RequestCache.set
    simp only []
    split_ifs <;> simp [mapGet_mapSet_self, ht]
  constructor <;> intro h <;> unfold RequestCache.get <;> simp only [] <;> rw [hget] <;> simp [h]

/-- C8 witness: with ttl 5, inserted at time 0, the value is returned
at time 3 and missed at time 9. -/
theorem C8_witness :
    (5 : Nat) ≠ 0 ∧
    ((RequestCache.set ⟨[], defaultCacheConfig⟩ 0 (fun _ => 1) "u" (42 : Nat) none
        (some 5)).get 3 "u" none).1 = some 42 ∧
    ((RequestCache.set ⟨[], defaultCacheConfig⟩ 0 (fun _ => 1) "u" (42 : Nat) none
        (some 5)).get 9 "u" none).1 = none := by
  have h3 := C8_ttl_semantics (⟨[], defaultCacheConfig⟩ : RequestCache Nat) 0 3
    (fun _ => 1) "u" 42 none 5 (by decide)
  have h9 := C8_ttl_semantics (⟨[], defaultCacheConfig⟩ : RequestCache Nat) 0 9
    (fun _ => 1) "u" 42 none 5 (by decide)
  refine ⟨by decide, ?_, ?_⟩
  · rw [h3.2 (by decide)]
  · rw [h9.1 (by decide)]

/-! ## Claim C6: the non-2xx error path -/

/-- C6, counterexample: the claim asserts the error callback receives a
distinguishable RequestFailure kind carrying the status, not a raw
message string.  The source passes `handleError`'s plain string: an
HTTP 500 whose body text contains "Failed to fetch" is delivered as
exactly the same generic connection string as a genuinely unreachable
server, so the callback value neither carries the status nor
distinguishes the failure class. -/
theorem C6_counterexample :
    sendMessageStream (.fetchResponse 500 ("Failed to fetch".data) []) =
      sendMessageStream (.fetchRejects ("Failed to fetch".data)) ∧
    (sendMessageStream (.fetchResponse 500 ("Failed to fetch".data) [])).events =
      [.errorCb lmstudioConnectionText] := by
  exact ⟨by decide, by decide⟩

/-- C6, amended: on a non-2xx response the error callback is invoked
exactly once before the rethrow, with the plain string
`HTTP <status>: <body>` as rewritten by `handleError` (verbatim when
the body avoids the 'Failed to fetch' / 'NetworkError' probes, the
generic connection/network constants otherwise) — not a structured
failure kind — and the delta callback is never invoked. -/
theorem C6_nonok_error_path (status : Nat) (body : List Char) (chunks : List (List Char))
    (h : ¬ (200 ≤ status ∧ status < 300)) :
    sendMessageStream (.fetchResponse status body chunks) =
      ⟨[.errorCb (handleError (httpErrMsg status body))], none,
        some (handleError (httpErrMsg status body))⟩ ∧
    deltasOf (sendMessageStream (.fetchResponse status body chunks)).events = [] ∧
    (containsSub (httpErrMsg status body) failedFetchText = false →
     containsSub (httpErrMsg status body) networkErrProbe = false →
     (sendMessageStream (.fetchResponse status body chunks)).events =
       [.errorCb (httpErrMsg status body)]) := by
  have h1 : sendMessageStream (.fetchResponse status body chunks) =
      ⟨[.errorCb (handleError (httpErrMsg status body))], none,
        some (handleError (httpErrMsg status body))⟩ := by
    simp [sendMessageStream, h]
  refine ⟨h1, ?_, ?_⟩
  · rw [h1]
    simp [deltasOf]
  · intro hf hn
    rw [h1]
    simp [handleError, hf, hn]

/-- C6 witness: HTTP 500 with body "Internal Server Error" delivers
the raw string "HTTP 500: Internal Server Error" to the error callback
once, and no delta callback fires. -/
theorem C6_witness :
    ¬ (200 ≤ 500 ∧ 500 < 300) ∧
    sendMessageStream (.fetchResponse 500 ("Internal Server Error".data) []) =
      ⟨[.errorCb ("HTTP 500: Internal Server Error".data)], none,
        some ("HTTP 500: Internal Server Error".data)⟩ := by
  have h := C6_nonok_error_path 500 ("Internal Server Error".data) [] (by decide)
  refine ⟨by decide, ?_⟩
  rw [h.1]
  decide

/-! ## Claim C9: delta application against the store -/

/-- If the updated message is present, `updateMessage` sets its content
to exactly the supplied string, regardless of the previous content. -/
theorem contentOf_updateMessage (msgs : List Message) (id : Int) (c : String)
    (h : (contentOf msgs id).isSome = true) :
    contentOf (updateMessage msgs id c) id = some c := by
  induction msgs with
  | nil => simp [contentOf] at h
  | cons m ms ih =>
    by_cases e : m.id = id
    · simp [updateMessage, contentOf, e]
    · simp only [updateMessage, if_neg e, contentOf] at h ⊢
      exact ih h

/-- C9, counterexample: the claim asserts each delta application reads
the CURRENT persisted content and appends to it.  With the assistant
message's persisted content externally set to "X", a local accumulator
"A" and an incoming delta "b", the applied content is "Ab" — the
accumulator plus the delta — not "Xb": the current persisted value is
ignored and the external update is lost. -/
theorem C9_counterexample :
    contentOf (onChunkStep 1 ([⟨1, .assistant, "X", none, none⟩], "A".data) ("b".data)).1 1 =
      some "Ab" ∧ ("Ab" : String) ≠ "Xb" := by
  exact ⟨by decide, by decide⟩

/-- C9, amended: each delta application appends the delta to a local
accumulator captured (empty) at stream start and OVERWRITES the
persisted message content with the accumulator; the new content is
`accumulator ++ delta` whatever the current persisted content was, so
an update made to the same message by another code path between two
delta applications is lost rather than preserved. -/
theorem C9_overwrites_with_accumulator (msgs : List Message) (acc chunk : List Char)
    (id : Int) (h : (contentOf msgs id).isSome = true) :
    contentOf (onChunkStep id (msgs, acc) chunk).1 id = some (String.mk (acc ++ chunk)) :=
  contentOf_updateMessage msgs id (String.mk (acc ++ chunk)) h

/-- C9 witness: the amended claim at the counterexample's store. -/
theorem C9_witness :
    (contentOf [(⟨1, .assistant, "X", none, none⟩ : Message)] 1).isSome = true ∧
    contentOf (onChunkStep 1 ([(⟨1, .assistant, "X", none, none⟩ : Message)], "A".data)
        ("b".data)).1 1 = some (String.mk ("A".data ++ "b".data)) :=
  ⟨by decide,
   C9_overwrites_with_accumulator [⟨1, .assistant, "X", none, none⟩] ("A".data) ("b".data) 1
     (by decide)⟩

/-! ## Claim C1: the message save/load round trip -/

theorem storeGet_storeSet_self (st : Storage) (k : String) (r : Raw) :
    storeGet (storeSet st k r) k = some r := by
  simp [storeSet, storeGet]

theorem storeGet_storeRemove_self (st : Storage) (k : String) :
    storeGet (storeRemove st k) k = none := by
  induction st with
  | nil => rfl
  | cons kv st ih =>
    by_cases h : kv.1 = k
    · simpa [storeRemove, List.filter_cons, h] using ih
    · simpa [storeRemove, List.filter_cons, h, storeGet] using ih

theorem jsonText_arr_ne_empty (xs : List Json) : String.mk (jsonText (Json.arr xs)) ≠ "" := by
  intro e
  have h := congrArg String.data e
  rw [show jsonText (Json.arr xs) = '[' :: (jsonTextList xs ++ [']']) from by
        rw [jsonText]] at h
  simp at h

/-- A store message that carries a timestamp fails the `isMessage`
guard after the JSON round trip: its timestamp property is present but
is a string, never a `Date` instance. -/
theorem isMessage_messageJsonRT_false (m : Message) (ht : m.timestamp ≠ none) :
    isMessage (messageJsonRT m) = false := by
  rcases m with ⟨id, role, content, ts, ctx⟩
  cases ts with
  | none => simp at ht
  | some t => simp [messageJsonRT, isMessage, getField]

/-- C1: saving any non-empty message list whose entries all carry a
creation timestamp (as both message constructors guarantee) and loading
it back yields the empty list and removes the messages storage key:
the serialized timestamps come back as strings, the `isMessage` guard
rejects them, and the whole stored list is discarded as corrupt. -/
theorem C1_messages_never_roundtrip (msgs : List Message) (st : Storage)
    (hne : msgs ≠ []) (hts : ∀ m ∈ msgs, m.timestamp ≠ none) :
    (loadMessages (saveMessages msgs st)).1 = [] ∧
    storeGet (loadMessages (saveMessages msgs st)).2 messagesKey = none := by
  have hparse : safeParseMessages
      ⟨String.mk (jsonText (Json.arr (msgs.map messageJsonRT))),
       some (Json.arr (msgs.map messageJsonRT))⟩ = none := by
    cases msgs with
    | nil => exact absurd rfl hne
    | cons m ms =>
      simp [safeParseMessages, validateMessagesArray,
        isMessage_messageJsonRT_false m (hts m (by simp))]
  have hsg := storeGet_storeSet_self st messagesKey
    ⟨String.mk (jsonText (Json.arr (msgs.map messageJsonRT))),
     some (Json.arr (msgs.map messageJsonRT))⟩
  have hload : loadMessages (saveMessages msgs st) =
      ([], storeRemove (saveMessages msgs st) messagesKey) := by
    unfold loadMessages saveMessages
    simp only []
    rw [hsg]
    simp [jsonText_arr_ne_empty, hparse]
  rw [hload]
  exact ⟨rfl, storeGet_storeRemove_self _ _⟩

/-- C1 witness: one assistant message with a timestamp is saved and
then lost on load, with the storage key removed. -/
theorem C1_witness :
    ([(⟨1, .assistant, "hi", some 0, none⟩ : Message)] ≠ []) ∧
    (∀ m ∈ [(⟨1, .assistant, "hi", some 0, none⟩ : Message)], m.timestamp ≠ none) ∧
    (loadMessages (saveMessages [⟨1, .assistant, "hi", some 0, none⟩] [])).1 = [] ∧
    storeGet (loadMessages (saveMessages [⟨1, .assistant, "hi", some 0, none⟩] [])).2
      messagesKey = none := by
  have h := C1_messages_never_roundtrip [⟨1, .assistant, "hi", some 0, none⟩] []
    (by simp) (by simp)
  exact ⟨by simp, by simp, h.1, h.2⟩

/-! ## Claim C10: checkStorageHealth and the messages key -/

/-- `validateStorageData` has no case for the messages key: its switch
falls through to the default branch, which is false, for every parsed
value. -/
theorem validateStorageData_messagesKey (v : Json) :
    validateStorageData messagesKey v = false := by
  simp [validateStorageData, messagesKey]

/-- C10: whenever a non-empty value is stored under the messages key —
in particular any output of `saveMessages` — `checkStorageHealth`
reports unhealthy and its issue list names the messages key (as an
invalid-format issue when the value decodes, as a corrupted-data issue
when it does not), because `validateStorageData` has no case for that
key and its default branch returns false. -/
theorem C10_messages_key_always_unhealthy (st : Storage) (r : Raw)
    (h : storeGet st messagesKey = some r) (hne : r.text ≠ "") :
    (checkStorageHealth st).1 = false ∧
    (String.append "Corrupted data for " messagesKey ∈ (checkStorageHealth st).2 ∨
     String.append "Invalid data format for " messagesKey ∈ (checkStorageHealth st).2) := by
  have hk : keyIssues st messagesKey = [String.append "Corrupted data for " messagesKey] ∨
      keyIssues st messagesKey = [String.append "Invalid data format for " messagesKey] := by
    rcases hp : r.parsed with _ | v
    · left
      simp [keyIssues, h, hne, hp]
    · right
      simp [keyIssues, h, hne, hp, validateStorageData_messagesKey]
  have hsplit : (checkStorageHealth st).2 =
      keyIssues st messagesKey ++
        concatAll ([contextsKey, activeContextsKey, currentModelKey,
          lmstudioBaseUrlKey].map (keyIssues st)) := by
    simp [checkStorageHealth, storageKeyList, concatAll]
  have hhealthy : (checkStorageHealth st).1 = false := by
    rw [show (checkStorageHealth st).1 = (checkStorageHealth st).2.isEmpty from rfl, hsplit]
    rcases hk with hk | hk <;> rw [hk] <;> simp
  have hmem : String.append "Corrupted data for " messagesKey ∈ (checkStorageHealth st).2 ∨
      String.append "Invalid data format for " messagesKey ∈ (checkStorageHealth st).2 := by
    rcases hk with hk | hk
    · left
      rw [hsplit, hk]
      simp
    · right
      rw [hsplit, hk]
      simp
  exact ⟨hhealthy, hmem⟩

/-- C10 witness: a store holding only a validly saved empty message
list is reported unhealthy. -/
theorem C10_witness :
    storeGet [(messagesKey, (⟨"[]", some (Json.arr [])⟩ : Raw))] messagesKey =
      some ⟨"[]", some (Json.arr [])⟩ ∧
    ("[]" : String) ≠ "" ∧
    (checkStorageHealth [(messagesKey, (⟨"[]", some (Json.arr [])⟩ : Raw))]).1 = false := by
  refine ⟨rfl, by decide, ?_⟩
  exact (C10_messages_key_always_unhealthy [(messagesKey, ⟨"[]", some (Json.arr [])⟩)]
    ⟨"[]", some (Json.arr [])⟩ rfl (by decide)).1

/-! ## Claim C7: corruption isolation across persisted fields -/

theorem storeRemove_cons (kv : String × Raw) (st : Storage) (k : String) :
    storeRemove (kv :: st) k =
      if kv.1 = k then storeRemove st k else kv :: storeRemove st k := by
  by_cases e : kv.1 = k <;> simp [storeRemove, List.filter_cons, e]

theorem storeGet_storeRemove_other (st : Storage) (k k2 : String) (h : k2 ≠ k) :
    storeGet (storeRemove st k) k2 = storeGet st k2 := by
  induction st with
  | nil => rfl
  | cons kv st ih =>
    rw [storeRemove_cons]
    by_cases e : kv.1 = k
    · rw [if_pos e, ih]
      have hne : kv.1 ≠ k2 := by
        rw [e]
        exact Ne.symm h
      simp [storeGet, hne]
    · rw [if_neg e]
      by_cases e2 : kv.1 = k2
      · simp [storeGet, e2]
      · simp [storeGet, e2, ih]

theorem fieldKey_ne (f g : PersistField) (h : g ≠ f) : fieldKey g ≠ fieldKey f := by
  cases f <;> cases g <;> first
    | exact absurd rfl h
    | decide

theorem loadMessages_fst (st : Storage) :
    (loadMessages st).1 =
      match storeGet st messagesKey with
      | none => []
      | some r =>
        if r.text = "" then []
        else
          match safeParseMessages r with
          | none => []
          | some msgs => msgs := by
  unfold loadMessages
  cases hsg : storeGet st messagesKey with
  | none => rfl
  | some r =>
    by_cases ht : r.text = ""
    · simp [ht]
    · simp only [ht, if_false, ite_false]
      cases safeParseMessages r <;> rfl

theorem loadContexts_fst (st : Storage) :
    (loadContexts st).1 =
      match storeGet st contextsKey with
      | none => []
      | some r =>
        if r.text = "" then []
        else
          match safeParseContexts r with
          | none => []
          | some ctxs => ctxs := by
  unfold loadContexts
  cases hsg : storeGet st contextsKey with
  | none => rfl
  | some r =>
    by_cases ht : r.text = ""
    · simp [ht]
    · simp only [ht, if_false, ite_false]
      cases safeParseContexts r <;> rfl

theorem loadActiveContexts_fst (st : Storage) :
    (loadActiveContexts st).1 =
      match storeGet st activeContextsKey with
      | none => []
      | some r =>
        if r.text = "" then []
        else
          match r.parsed with
          | none => []
          | some v =>
            match strArray? v with
            | none => []
            | some ids => ids := by
  unfold loadActiveContexts
  cases hsg : storeGet st activeContextsKey with
  | none => rfl
  | some r =>
    by_cases ht : r.text = ""
    · simp [ht]
    · simp only [ht, if_false, ite_false]
      cases r.parsed with
      | none => rfl
      | some v => cases h2 : strArray? v <;> simp [h2]

theorem loadCurrentModel_fst (st : Storage) :
    (loadCurrentModel st).1 =
      match storeGet st currentModelKey with
      | none => none
      | some r => if r.text = "" then none else some r.text := by
  unfold loadCurrentModel
  cases hsg : storeGet st currentModelKey <;> rfl

theorem loadLMStudioBaseUrl_fst (st : Storage) :
    (loadLMStudioBaseUrl st).1 =
      match storeGet st lmstudioBaseUrlKey with
      | none => none
      | some r => if r.text = "" then none else some r.text := by
  unfold loadLMStudioBaseUrl
  cases hsg : storeGet st lmstudioBaseUrlKey <;> rfl

/-- A field's load result depends only on its own storage key. -/
theorem loadAny_congr (g : PersistField) (st1 st2 : Storage)
    (h : storeGet st1 (fieldKey g) = storeGet st2 (fieldKey g)) :
    loadAny g st1 = loadAny g st2 := by
  cases g with
  | messagesF =>
    simp only [fieldKey] at h
    simp only [loadAny, loadMessages_fst, h]
  | contextsF =>
    simp only [fieldKey] at h
    simp only [loadAny, loadContexts_fst, h]
  | activeContextsF =>
    simp only [fieldKey] at h
    simp only [loadAny, loadActiveContexts_fst, h]
  | currentModelF =>
    simp only [fieldKey] at h
    simp only [loadAny, loadCurrentModel_fst, h]
  | baseUrlF =>
    simp only [fieldKey] at h
    simp only [loadAny, loadLMStudioBaseUrl_fst, h]

/-- C7, counterexample: the claim asserts a corrupted stored value is
REMOVED on load for every field.  For the active-contexts field with an
undecodable stored value (raw text "\x7b", JSON.parse throws), load
returns the empty list but the catch block performs no removal: the
corrupted key is still present afterwards. -/
theorem C7_counterexample :
    (loadActiveContexts [(activeContextsKey, (⟨"\x7b", none⟩ : Raw))]).1 = [] ∧
    storeGet (loadActiveContexts [(activeContextsKey, (⟨"\x7b", none⟩ : Raw))]).2
      activeContextsKey = some ⟨"\x7b", none⟩ := by
  exact ⟨rfl, rfl⟩

/-- C7, amended: for every persisted field, load on a corrupted stored
value for that field returns absent (the field's empty/default value)
without throwing, and the load of every other field is unchanged by
that corruption; the corrupted key is removed exactly in these cases:
always for messages and contexts, only when the value decodes but
fails shape validation for active contexts, and never for the
current-model/base-url fields (whose loads validate nothing and whose
only absent-producing stored value is the empty string). -/
theorem C7_corruption_isolation (f : PersistField) (st : Storage) (r : Raw)
    (h : storeGet st (fieldKey f) = some r) (hc : corruptedFor f r = true) :
    loadAny f st = absentOut f ∧
    (∀ g : PersistField, g ≠ f → loadAny g (storageAfterLoad f st) = loadAny g st) ∧
    (storeGet (storageAfterLoad f st) (fieldKey f) = none ↔ removalSpec f r = true) := by
  cases f with
  | messagesF =>
    simp only [corruptedFor, Bool.and_eq_true, bne_iff_ne, ne_eq,
      Option.isNone_iff_eq_none] at hc
    obtain ⟨hc1, hc2⟩ := hc
    simp only [fieldKey] at h
    have hload : loadMessages st = ([], storeRemove st messagesKey) := by
      unfold loadMessages
      rw [h]
      simp [hc1, hc2]
    have hA : storageAfterLoad .messagesF st = storeRemove st messagesKey := by
      simp [storageAfterLoad, hload]
    refine ⟨by simp [loadAny, hload, absentOut], ?_, ?_⟩
    · intro g hg
      refine loadAny_congr g _ st ?_
      rw [hA]
      exact storeGet_storeRemove_other st messagesKey (fieldKey g)
        (fieldKey_ne .messagesF g hg)
    · rw [hA]
      simp [fieldKey, storeGet_storeRemove_self, removalSpec]
  | contextsF =>
    simp only [corruptedFor, Bool.and_eq_true, bne_iff_ne, ne_eq,
      Option.isNone_iff_eq_none] at hc
    obtain ⟨hc1, hc2⟩ := hc
    simp only [fieldKey] at h
    have hload : loadContexts st = ([], storeRemove st contextsKey) := by
      unfold loadContexts
      rw [h]
      simp [hc1, hc2]
    have hA : storageAfterLoad .contextsF st = storeRemove st contextsKey := by
      simp [storageAfterLoad, hload]
    refine ⟨by simp [loadAny, hload, absentOut], ?_, ?_⟩
    · intro g hg
      refine loadAny_congr g _ st ?_
      rw [hA]
      exact storeGet_storeRemove_other st contextsKey (fieldKey g)
        (fieldKey_ne .contextsF g hg)
    · rw [hA]
      simp [fieldKey, storeGet_storeRemove_self, removalSpec]
  | activeContextsF =>
    simp only [corruptedFor, Bool.and_eq_true, bne_iff_ne, ne_eq] at hc
    obtain ⟨hc1, hc2⟩ := hc
    simp only [fieldKey] at h
    rcases hp : r.parsed with _ | v
    · have hload : loadActiveContexts st = ([], st) := by
        unfold loadActiveContexts
        rw [h]
        simp [hc1, hp]
      have hA : storageAfterLoad .activeContextsF st = st := by
        simp [storageAfterLoad, hload]
      refine ⟨by simp [loadAny, hload, absentOut], ?_, ?_⟩
      · intro g hg
        rw [hA]
      · rw [hA]
        simp [fieldKey, h, removalSpec, hp]
    · rw [hp] at hc2
      have hs : strArray? v = none := by
        simpa [Option.isNone_iff_eq_none] using hc2
      have hload : loadActiveContexts st = ([], storeRemove st activeContextsKey) := by
        unfold loadActiveContexts
        rw [h]
        simp [hc1, hp, hs]
      have hA : storageAfterLoad .activeContextsF st = storeRemove st activeContextsKey := by
        simp [storageAfterLoad, hload]
      refine ⟨by simp [loadAny, hload, absentOut], ?_, ?_⟩
      · intro g hg
        refine loadAny_congr g _ st ?_
        rw [hA]
        exact storeGet_storeRemove_other st activeContextsKey (fieldKey g)
          (fieldKey_ne .activeContextsF g hg)
      · rw [hA]
        simp [fieldKey, storeGet_storeRemove_self, removalSpec, hp]
  | currentModelF =>
    have hc1 : r.text = "" := by simpa [corruptedFor] using hc
    simp only [fieldKey] at h
    have hload : loadCurrentModel st = (none, st) := by
      unfold loadCurrentModel
      rw [h]
      simp [hc1]
    have hA : storageAfterLoad .currentModelF st = st := by
      simp [storageAfterLoad, hload]
    refine ⟨by simp [loadAny, hload, absentOut], ?_, ?_⟩
    · intro g hg
      rw [hA]
    · rw [hA]
      simp [fieldKey, h, removalSpec]
  | baseUrlF =>
    have hc1 : r.text = "" := by simpa [corruptedFor] using hc
    simp only [fieldKey] at h
    have hload : loadLMStudioBaseUrl st = (none, st) := by
      unfold loadLMStudioBaseUrl
      rw [h]
      simp [hc1]
    have hA : storageAfterLoad .baseUrlF st = st := by
      simp [storageAfterLoad, hload]
    refine ⟨by simp [loadAny, hload, absentOut], ?_, ?_⟩
    · intro g hg
      rw [hA]
    · rw [hA]
      simp [fieldKey, h, removalSpec]

/-- C7 witness: an undecodable messages value loads as absent, is
removed, and leaves the contexts load unchanged. -/
theorem C7_witness :
    storeGet [(messagesKey, (⟨"bad", none⟩ : Raw))] messagesKey = some ⟨"bad", none⟩ ∧
    corruptedFor .messagesF ⟨"bad", none⟩ = true ∧
    loadAny .messagesF [(messagesKey, ⟨"bad", none⟩)] = absentOut .messagesF ∧
    loadAny .contextsF (storageAfterLoad .messagesF [(messagesKey, ⟨"bad", none⟩)]) =
      loadAny .contextsF [(messagesKey, ⟨"bad", none⟩)] := by
  have h := C7_corruption_isolation .messagesF [(messagesKey, ⟨"bad", none⟩)]
    ⟨"bad", none⟩ rfl (by decide)
  exact ⟨rfl, by decide, h.1, h.2.1 .contextsF (by decide)⟩
